import Mathlib

/-!
Verification of the silence-removal pipeline in `src/remove_silence.py`.

The pure core of the program is `create_cut_list` (lines 191-208), which
turns a list of detected silence intervals into the list of "keep"
intervals.  We embed it over exact rationals (Python floats are replaced
by `ℚ`), together with the positional pairing step of `detect_silence`
(lines 163-166), the control flow of `remove_silence` (lines 284-311)
and the artifact collection/sorting step of `process_chunks_parallel`
(lines 238-261).
-/

namespace RemoveSilence

/-- A time interval `(start, end)` in seconds, with exact rational endpoints. -/
abbrev Interval : Type := ℚ × ℚ

/-- The loop of `create_cut_list` (src/remove_silence.py lines 193-206),
with the mutable `last_end` threaded as an explicit argument.  The `[]`
case performs the trailing-segment check that follows the loop
(lines 205-206). -/
def cutListAux : List Interval → ℚ → ℚ → ℚ → ℚ → List Interval
  | [], lastEnd, totalDuration, minSegmentDuration, padding =>
    if minSegmentDuration ≤ totalDuration - lastEnd then
      [(max (lastEnd - padding) 0, totalDuration)]
    else []
  | (s, e) :: rest, lastEnd, totalDuration, minSegmentDuration, padding =>
    let segmentStart := max 0 (lastEnd - padding)
    let segmentEnd := max segmentStart (s + padding)
    if minSegmentDuration ≤ segmentEnd - segmentStart then
      (segmentStart, segmentEnd) :: cutListAux rest e totalDuration minSegmentDuration padding
    else
      cutListAux rest e totalDuration minSegmentDuration padding

/-- `create_cut_list` from src/remove_silence.py lines 191-208:
`last_end` starts at `0`. -/
def create_cut_list (silences : List Interval) (totalDuration minSegmentDuration padding : ℚ) :
    List Interval :=
  cutListAux silences 0 totalDuration minSegmentDuration padding

/-- The cut-list algorithm exactly as worded by the specification
(§4.2): candidate segment `[max(0, lastEnd - padding),
max(candidateStart, s + padding)]`, appended iff its length is at least
`minSegmentDuration`, then `lastEnd := e`; after the loop the trailing
segment `[max(lastEnd - padding, 0), totalDuration]` is appended iff
`totalDuration - lastEnd ≥ minSegmentDuration`. -/
def buildKeepAux : List Interval → ℚ → ℚ → ℚ → ℚ → List Interval
  | [], lastEnd, totalDuration, minSegmentDuration, padding =>
    if minSegmentDuration ≤ totalDuration - lastEnd then
      [(max (lastEnd - padding) 0, totalDuration)]
    else []
  | (s, e) :: rest, lastEnd, totalDuration, minSegmentDuration, padding =>
    let candidateStart := max 0 (lastEnd - padding)
    let candidateEnd := max candidateStart (s + padding)
    if minSegmentDuration ≤ candidateEnd - candidateStart then
      (candidateStart, candidateEnd) :: buildKeepAux rest e totalDuration minSegmentDuration padding
    else
      buildKeepAux rest e totalDuration minSegmentDuration padding

/-- The specification's `buildKeepList`, starting from `lastEnd = 0`. -/
def buildKeepList (silences : List Interval) (totalDuration minSegmentDuration padding : ℚ) :
    List Interval :=
  buildKeepAux silences 0 totalDuration minSegmentDuration padding

/-- Total covered duration of a list of intervals. -/
def sumLen (l : List Interval) : ℚ :=
  (l.map (fun x => x.2 - x.1)).sum

theorem cutListAux_eq_buildKeepAux (silences : List Interval) :
    ∀ lastEnd totalDuration minSegmentDuration padding : ℚ,
      cutListAux silences lastEnd totalDuration minSegmentDuration padding =
        buildKeepAux silences lastEnd totalDuration minSegmentDuration padding := by
  induction silences with
  | nil => intro lastEnd t m p; rfl
  | cons x rest ih =>
    intro lastEnd t m p
    obtain ⟨s, e⟩ := x
    simp only [cutListAux, buildKeepAux, ih]

/-- C1: `create_cut_list` computes exactly the keep list of the
specification's algorithm, for every input. -/
theorem create_cut_list_matches_spec
    (silences : List Interval) (totalDuration minSegmentDuration padding : ℚ) :
    create_cut_list silences totalDuration minSegmentDuration padding =
      buildKeepList silences totalDuration minSegmentDuration padding :=
  cutListAux_eq_buildKeepAux silences 0 totalDuration minSegmentDuration padding

/-- C4: the specification's worked example: silences `[(2, 3)]`, total
duration `10`, minimum segment duration `1/5`, padding `1/10` yields
exactly `[(0, 21/10), (29/10, 10)]`. -/
theorem create_cut_list_example :
    create_cut_list [((2 : ℚ), (3 : ℚ))] 10 (1/5) (1/10) =
      [((0 : ℚ), (21/10 : ℚ)), ((29/10 : ℚ), (10 : ℚ))] := by
  norm_num [create_cut_list, cutListAux]

theorem cutListAux_min_duration (m pad : ℚ) (hp : 0 ≤ pad) :
    ∀ (silences : List Interval) (lastEnd totalDuration : ℚ),
      (∀ x ∈ silences, 0 ≤ x.2) → 0 ≤ lastEnd →
      ∀ y ∈ cutListAux silences lastEnd totalDuration m pad, m ≤ y.2 - y.1 := by
  intro silences
  induction silences with
  | nil =>
    intro lastEnd total _ hle y hy
    simp only [cutListAux] at hy
    split at hy
    · rename_i hkeep
      simp only [List.mem_singleton] at hy
      subst hy
      have hmax : max (lastEnd - pad) 0 ≤ lastEnd := max_le (by linarith) hle
      show m ≤ total - max (lastEnd - pad) 0
      linarith
    · simp at hy
  | cons x rest ih =>
    intro lastEnd total hends hle y hy
    obtain ⟨s, e⟩ := x
    have he : (0 : ℚ) ≤ e := hends (s, e) (List.mem_cons_self _ _)
    have hrest : ∀ z ∈ rest, (0 : ℚ) ≤ z.2 := fun z hz => hends z (List.mem_cons_of_mem _ hz)
    simp only [cutListAux] at hy
    split at hy
    · rename_i hkeep
      rcases List.mem_cons.1 hy with hhead | htail
      · subst hhead; simpa using hkeep
      · exact ih e total hrest he y htail
    · exact ih e total hrest he y hy

/-- C5: for padding ≥ 0 and silences with nonnegative end times, every
interval produced by `create_cut_list` — the trailing segment included —
has length at least `minSegmentDuration`. -/
theorem create_cut_list_min_duration
    (silences : List Interval) (totalDuration minSegmentDuration padding : ℚ)
    (hp : 0 ≤ padding) (hends : ∀ x ∈ silences, 0 ≤ x.2) :
    ∀ y ∈ create_cut_list silences totalDuration minSegmentDuration padding,
      minSegmentDuration ≤ y.2 - y.1 :=
  cutListAux_min_duration minSegmentDuration padding hp silences 0 totalDuration hends le_rfl

/-- Concrete instance of `create_cut_list_min_duration`: the first
interval of the spec's worked example has length at least `1/5`. -/
theorem create_cut_list_min_duration_witness :
    (1 : ℚ)/5 ≤ (21/10 : ℚ) - 0 := by
  have hmem : ((0 : ℚ), (21/10 : ℚ)) ∈ create_cut_list [((2 : ℚ), (3 : ℚ))] 10 (1/5) (1/10) := by
    norm_num [create_cut_list, cutListAux]
  exact create_cut_list_min_duration [((2 : ℚ), (3 : ℚ))] 10 (1/5) (1/10)
    (by norm_num) (by norm_num) _ hmem

/-- C10: `create_cut_list` does not short-circuit on an empty silences
list: with padding ≥ 0 it returns the whole timeline when
`totalDuration ≥ minSegmentDuration` and the empty list otherwise. -/
theorem create_cut_list_nil
    (totalDuration minSegmentDuration padding : ℚ) (hp : 0 ≤ padding) :
    (minSegmentDuration ≤ totalDuration →
      create_cut_list [] totalDuration minSegmentDuration padding = [((0 : ℚ), totalDuration)]) ∧
    (totalDuration < minSegmentDuration →
      create_cut_list [] totalDuration minSegmentDuration padding = []) := by
  have h0 : max ((0 : ℚ) - padding) 0 = 0 := max_eq_right (by linarith)
  constructor
  · intro h
    simp [create_cut_list, cutListAux, h0, h, hp]
  · intro h
    simp [create_cut_list, cutListAux, not_le.2 h]

/-- Concrete instance of `create_cut_list_nil`: no silences in a
5-second video keeps the single interval `(0, 5)`. -/
theorem create_cut_list_nil_witness :
    create_cut_list [] 5 (1/5) (1/10) = [((0 : ℚ), 5)] :=
  (create_cut_list_nil 5 (1/5) (1/10) (by norm_num)).1 (by norm_num)

theorem cutListAux_start_lb (pad c m : ℚ) ( _hp : 0 ≤ pad) :
    ∀ (silences : List Interval) (lastEnd total : ℚ),
      (∀ x ∈ silences, c ≤ x.1 ∧ x.1 + 2 * pad ≤ x.2) →
      c + 2 * pad ≤ lastEnd →
      ∀ y ∈ cutListAux silences lastEnd total m pad, c + pad ≤ y.1 := by
  intro silences
  induction silences with
  | nil =>
    intro lastEnd total _ hle y hy
    simp only [cutListAux] at hy
    split at hy
    · simp only [List.mem_singleton] at hy
      subst hy
      show c + pad ≤ max (lastEnd - pad) 0
      exact le_trans (by linarith) (le_max_left _ _)
    · simp at hy
  | cons x rest ih =>
    intro lastEnd total hsil hle y hy
    obtain ⟨s, e⟩ := x
    have hx := hsil (s, e) (List.mem_cons_self _ _)
    have hrest : ∀ z ∈ rest, c ≤ z.1 ∧ z.1 + 2 * pad ≤ z.2 :=
      fun z hz => hsil z (List.mem_cons_of_mem _ hz)
    have hle' : c + 2 * pad ≤ e := by
      have h1 := hx.1
      have h2 := hx.2
      linarith
    simp only [cutListAux] at hy
    split at hy
    · rcases List.mem_cons.1 hy with hhead | htail
      · subst hhead
        show c + pad ≤ max 0 (lastEnd - pad)
        exact le_trans (by linarith) (le_max_right _ _)
      · exact ih e total hrest hle' y htail
    · exact ih e total hrest hle' y hy

theorem cutListAux_pairwise (m pad : ℚ) ( _hp : 0 ≤ pad) (hm : 0 < m) :
    ∀ (silences : List Interval) (lastEnd total : ℚ),
      List.Pairwise (fun x y => x.1 ≤ y.1) silences →
      (∀ x ∈ silences, x.1 + 2 * pad ≤ x.2) →
      List.Pairwise (fun a b : Interval => a.2 ≤ b.1 ∧ a.1 < b.1)
        (cutListAux silences lastEnd total m pad) := by
  intro silences
  induction silences with
  | nil =>
    intro lastEnd total _ _
    simp only [cutListAux]
    split
    · exact List.pairwise_singleton _ _
    · exact List.Pairwise.nil
  | cons x rest ih =>
    intro lastEnd total hsorted hlen
    obtain ⟨s, e⟩ := x
    have hlenx : s + 2 * pad ≤ e := hlen (s, e) (List.mem_cons_self _ _)
    have hrestlen : ∀ z ∈ rest, z.1 + 2 * pad ≤ z.2 :=
      fun z hz => hlen z (List.mem_cons_of_mem _ hz)
    have hrestsorted : List.Pairwise (fun x y => x.1 ≤ y.1) rest :=
      (List.pairwise_cons.1 hsorted).2
    have hge : ∀ z ∈ rest, s ≤ z.1 := (List.pairwise_cons.1 hsorted).1
    simp only [cutListAux]
    split
    · rename_i hkeep
      refine List.pairwise_cons.2 ⟨?_, ih e total hrestsorted hrestlen⟩
      intro y hy
      have hyl : s + pad ≤ y.1 := by
        have := cutListAux_start_lb pad s m _hp rest e total
          (fun z hz => ⟨hge z hz, hrestlen z hz⟩) (by linarith) y hy
        linarith
      have hA : ¬ (s + pad ≤ max 0 (lastEnd - pad)) := by
        intro hc
        rw [max_eq_left hc] at hkeep
        simp at hkeep
        linarith
      have hBeq : max (max 0 (lastEnd - pad)) (s + pad) = s + pad :=
        max_eq_right (not_le.1 hA).le
      constructor
      · show max (max 0 (lastEnd - pad)) (s + pad) ≤ y.1
        rw [hBeq]; exact hyl
      · show max 0 (lastEnd - pad) < y.1
        have := not_le.1 hA
        linarith
    · exact ih e total hrestsorted hrestlen

/-- C2 (amended): for padding ≥ 0, minSegmentDuration > 0, silences
ascending by start time and each silence at least `2 · padding` long,
the output of `create_cut_list` is pairwise non-overlapping and
strictly increasing in start time. -/
theorem create_cut_list_pairwise
    (silences : List Interval) (totalDuration minSegmentDuration padding : ℚ)
    (hp : 0 ≤ padding) (hm : 0 < minSegmentDuration)
    (hsorted : List.Pairwise (fun x y => x.1 ≤ y.1) silences)
    (hlen : ∀ x ∈ silences, x.1 + 2 * padding ≤ x.2) :
    List.Pairwise (fun a b : Interval => a.2 ≤ b.1 ∧ a.1 < b.1)
      (create_cut_list silences totalDuration minSegmentDuration padding) :=
  cutListAux_pairwise minSegmentDuration padding hp hm silences 0 totalDuration hsorted hlen

/-- C2 counterexample: a single well-formed ascending silence `(1, 11/10)`
(start < end), with the run's configured `minSegmentDuration = 1/5` and
`padding = 1/10`, produces two overlapping keep intervals: the second
starts at `1`, before the first ends at `11/10`. -/
theorem create_cut_list_pairwise_counterexample :
    create_cut_list [((1 : ℚ), (11/10 : ℚ))] 10 (1/5) (1/10) =
      [((0 : ℚ), (11/10 : ℚ)), ((1 : ℚ), (10 : ℚ))] ∧
    ¬ List.Pairwise (fun a b : Interval => a.2 ≤ b.1)
      (create_cut_list [((1 : ℚ), (11/10 : ℚ))] 10 (1/5) (1/10)) := by
  have h : create_cut_list [((1 : ℚ), (11/10 : ℚ))] 10 (1/5) (1/10) =
      [((0 : ℚ), (11/10 : ℚ)), ((1 : ℚ), (10 : ℚ))] := by
    norm_num [create_cut_list, cutListAux]
  refine ⟨h, ?_⟩
  rw [h]
  intro hpair
  have := (List.pairwise_cons.1 hpair).1 ((1 : ℚ), (10 : ℚ)) (List.mem_singleton_self _)
  norm_num at this

/-- Concrete instance of `create_cut_list_pairwise` on the spec's
worked example. -/
theorem create_cut_list_pairwise_witness :
    List.Pairwise (fun a b : Interval => a.2 ≤ b.1 ∧ a.1 < b.1)
      (create_cut_list [((2 : ℚ), (3 : ℚ))] 10 (1/5) (1/10)) :=
  create_cut_list_pairwise [((2 : ℚ), (3 : ℚ))] 10 (1/5) (1/10)
    (by norm_num) (by norm_num) (List.pairwise_singleton _ _)
    (by intro x hx; rw [List.mem_singleton] at hx; subst hx; norm_num)

theorem cutListAux_bounds (m pad total : ℚ) (hp : 0 ≤ pad) (hm : 0 < m) :
    ∀ (silences : List Interval) (lastEnd : ℚ),
      (∀ x ∈ silences, 0 ≤ x.1 ∧ x.1 + 2 * pad ≤ x.2 ∧ x.2 ≤ total) →
      0 ≤ lastEnd →
      ∀ y ∈ cutListAux silences lastEnd total m pad,
        0 ≤ y.1 ∧ y.1 ≤ y.2 ∧ y.2 ≤ total := by
  intro silences
  induction silences with
  | nil =>
    intro lastEnd _ hle y hy
    simp only [cutListAux] at hy
    split at hy
    · rename_i hkeep
      simp only [List.mem_singleton] at hy
      subst hy
      refine ⟨le_max_right _ _, ?_, le_refl _⟩
      show max (lastEnd - pad) 0 ≤ total
      exact max_le (by linarith) (by linarith)
    · simp at hy
  | cons x rest ih =>
    intro lastEnd hsil hle y hy
    obtain ⟨s, e⟩ := x
    have hx := hsil (s, e) (List.mem_cons_self _ _)
    have hrest : ∀ z ∈ rest, 0 ≤ z.1 ∧ z.1 + 2 * pad ≤ z.2 ∧ z.2 ≤ total :=
      fun z hz => hsil z (List.mem_cons_of_mem _ hz)
    have he : (0 : ℚ) ≤ e := by
      have h1 := hx.1
      have h2 := hx.2.1
      linarith
    simp only [cutListAux] at hy
    split at hy
    · rename_i hkeep
      rcases List.mem_cons.1 hy with hhead | htail
      · subst hhead
        refine ⟨le_max_left _ _, le_max_left _ _, ?_⟩
        show max (max 0 (lastEnd - pad)) (s + pad) ≤ total
        have hA : ¬ (s + pad ≤ max 0 (lastEnd - pad)) := by
          intro hc
          rw [max_eq_left hc] at hkeep
          simp at hkeep
          linarith
        rw [max_eq_right (not_le.1 hA).le]
        have h2 := hx.2.1
        have h3 := hx.2.2
        linarith
      · exact ih e hrest he y htail
    · exact ih e hrest he y hy

theorem sumLen_le_of_chain (T : ℚ) :
    ∀ (l : List Interval) (L : ℚ),
      (∀ x ∈ l, L ≤ x.1 ∧ x.1 ≤ x.2 ∧ x.2 ≤ T) →
      List.Pairwise (fun a b : Interval => a.2 ≤ b.1) l →
      sumLen l ≤ max (T - L) 0 := by
  intro l
  induction l with
  | nil =>
    intro L _ _
    simp only [sumLen, List.map_nil, List.sum_nil]
    exact le_max_right _ _
  | cons x rest ih =>
    intro L hb hpair
    obtain ⟨a, b⟩ := x
    have hx := hb (a, b) (List.mem_cons_self _ _)
    have hrest : ∀ z ∈ rest, b ≤ z.1 ∧ z.1 ≤ z.2 ∧ z.2 ≤ T :=
      fun z hz => ⟨(List.pairwise_cons.1 hpair).1 z hz, (hb z (List.mem_cons_of_mem _ hz)).2⟩
    have ihr := ih b hrest (List.pairwise_cons.1 hpair).2
    rw [max_eq_left (by linarith [hx.2.2] : (0 : ℚ) ≤ T - b)] at ihr
    have hsum : sumLen ((a, b) :: rest) = (b - a) + sumLen rest := by
      simp [sumLen]
    rw [hsum]
    refine le_trans ?_ (le_max_left _ _)
    have h1 := hx.1
    have h2 := hx.2.1
    linarith

/-- C3 (amended): for padding ≥ 0, minSegmentDuration > 0,
totalDuration ≥ 0, and silences ascending with each silence inside
`[0, totalDuration]` and at least `2 · padding` long, every output
interval of `create_cut_list` lies inside `[0, totalDuration]` and the
total covered duration is at most `totalDuration`. -/
theorem create_cut_list_covers_timeline
    (silences : List Interval) (totalDuration minSegmentDuration padding : ℚ)
    (hp : 0 ≤ padding) (hm : 0 < minSegmentDuration) (ht : 0 ≤ totalDuration)
    (hsorted : List.Pairwise (fun x y => x.1 ≤ y.1) silences)
    (hsil : ∀ x ∈ silences, 0 ≤ x.1 ∧ x.1 + 2 * padding ≤ x.2 ∧ x.2 ≤ totalDuration) :
    (∀ y ∈ create_cut_list silences totalDuration minSegmentDuration padding,
        0 ≤ y.1 ∧ y.1 ≤ y.2 ∧ y.2 ≤ totalDuration) ∧
    sumLen (create_cut_list silences totalDuration minSegmentDuration padding) ≤
      totalDuration := by
  have hbounds := cutListAux_bounds minSegmentDuration padding totalDuration hp hm
    silences 0 hsil le_rfl
  have hpair : List.Pairwise (fun a b : Interval => a.2 ≤ b.1)
      (create_cut_list silences totalDuration minSegmentDuration padding) :=
    (cutListAux_pairwise minSegmentDuration padding hp hm silences 0 totalDuration
      hsorted (fun x hx => (hsil x hx).2.1)).imp (fun h => h.1)
  have hsum := sumLen_le_of_chain totalDuration
    (create_cut_list silences totalDuration minSegmentDuration padding) 0
    (fun y hy => hbounds y hy) hpair
  rw [sub_zero, max_eq_left ht] at hsum
  exact ⟨hbounds, hsum⟩

/-- C3 counterexample: for the well-formed input
`silences = [(1, 11/10)]`, `totalDuration = 10` (defaults
`minSegmentDuration = 1/5`, `padding = 1/10`), the two produced
intervals overlap and their total length is `101/10 > 10`. -/
theorem create_cut_list_covers_timeline_counterexample :
    sumLen (create_cut_list [((1 : ℚ), (11/10 : ℚ))] 10 (1/5) (1/10)) = 101/10 ∧
    ¬ sumLen (create_cut_list [((1 : ℚ), (11/10 : ℚ))] 10 (1/5) (1/10)) ≤ 10 := by
  have h : sumLen (create_cut_list [((1 : ℚ), (11/10 : ℚ))] 10 (1/5) (1/10)) = 101/10 := by
    norm_num [create_cut_list, cutListAux, sumLen]
  refine ⟨h, ?_⟩
  rw [h]
  norm_num

/-- Concrete instance of `create_cut_list_covers_timeline` on the
spec's worked example. -/
theorem create_cut_list_covers_timeline_witness :
    sumLen (create_cut_list [((2 : ℚ), (3 : ℚ))] 10 (1/5) (1/10)) ≤ 10 :=
  (create_cut_list_covers_timeline [((2 : ℚ), (3 : ℚ))] 10 (1/5) (1/10)
    (by norm_num) (by norm_num) (by norm_num) (List.pairwise_singleton _ _)
    (by intro x hx; rw [List.mem_singleton] at hx; subst hx; norm_num)).2

/-- The pairing step of `detect_silence` (src/remove_silence.py line
166): the parsed `silence_start` and `silence_end` timestamp sequences
are paired positionally with `zip`. -/
def silence_periods (starts ends : List ℚ) : List Interval :=
  List.zip starts ends

theorem zip_eq_take_zip {α β : Type} :
    ∀ (l : List α) (l2 : List β), l.zip l2 = (l.take l2.length).zip l2 := by
  intro l
  induction l with
  | nil => intro l2; simp
  | cons a l ih =>
    intro l2
    cases l2 with
    | nil => simp
    | cons b l2 => simp [List.zip_cons_cons, ih l2]

/-- C7: when one more `silence_start` than `silence_end` was parsed,
`detect_silence` pairs them positionally, silently drops the unmatched
trailing start, and returns exactly as many intervals as there are end
markers. -/
theorem silence_periods_drops_unmatched_start
    (starts ends : List ℚ) (h : starts.length = ends.length + 1) :
    (silence_periods starts ends).length = ends.length ∧
    silence_periods starts ends = (starts.take ends.length).zip ends := by
  constructor
  · rw [silence_periods, List.length_zip, h]
    omega
  · exact zip_eq_take_zip starts ends

/-- Concrete instance of `silence_periods_drops_unmatched_start`:
three starts, two ends. -/
theorem silence_periods_drops_unmatched_start_witness :
    (silence_periods [(1 : ℚ), 2, 5] [(3/2 : ℚ), 3]).length = 2 ∧
    silence_periods [(1 : ℚ), 2, 5] [(3/2 : ℚ), 3] =
      ([(1 : ℚ), 2, 5].take 2).zip [(3/2 : ℚ), 3] := by
  have h := silence_periods_drops_unmatched_start [(1 : ℚ), 2, 5] [(3/2 : ℚ), 3] (by simp)
  simpa using h

/-- Possible outcomes of one `remove_silence` run, given the parsed
silences and the total duration.  `raisedError` stands for the run
terminating with a raised exception (a fatal error). -/
inductive Outcome where
  | noSilences : Outcome
  | noSegments : Outcome
  | completed : List Interval → Outcome
  | raisedError : Outcome
deriving DecidableEq

/-- Which pipeline stages ran, plus the outcome. -/
structure RunTrace where
  builtCutList : Bool
  invokedExecutor : Bool
  outcome : Outcome
deriving DecidableEq

/-- Control flow of `remove_silence` (src/remove_silence.py lines
284-311) after silence detection and duration retrieval succeed: empty
silences return early (lines 289-291) before the cut-list builder runs;
an empty cut list returns early (lines 304-306) before the segment
executor runs; otherwise the segment stage is invoked with the cut
list. -/
def remove_silence_model (silences : List Interval)
    (totalDuration minSegmentDuration padding : ℚ) : RunTrace :=
  if silences.isEmpty then
    ⟨false, false, Outcome.noSilences⟩
  else
    let cl := create_cut_list silences totalDuration minSegmentDuration padding
    if cl.isEmpty then
      ⟨true, false, Outcome.noSegments⟩
    else
      ⟨true, true, Outcome.completed cl⟩

/-- C6 counterexample: silences `[(0, 10)]` with total duration `10`
(defaults `1/5`, `1/10`) yield an empty cut list, and the run returns
normally with outcome `noSegments` — it does not fail with a raised
fatal error. -/
theorem remove_silence_no_fatal_error_counterexample :
    remove_silence_model [((0 : ℚ), (10 : ℚ))] 10 (1/5) (1/10) =
      ⟨true, false, Outcome.noSegments⟩ ∧
    Outcome.noSegments ≠ Outcome.raisedError := by
  constructor
  · norm_num [remove_silence_model, create_cut_list, cutListAux]
  · intro h
    cases h

/-- C6 (amended): an empty cut list is not a fatal error: whenever the
silences are non-empty but the cut list comes out empty,
`remove_silence` logs a warning and returns normally with outcome
`noSegments`, never invoking the segment executor. -/
theorem remove_silence_empty_cut_list_no_op
    (silences : List Interval) (totalDuration minSegmentDuration padding : ℚ)
    (hne : silences ≠ [])
    (hcl : create_cut_list silences totalDuration minSegmentDuration padding = []) :
    remove_silence_model silences totalDuration minSegmentDuration padding =
      ⟨true, false, Outcome.noSegments⟩ := by
  cases silences with
  | nil => exact absurd rfl hne
  | cons x rest => simp [remove_silence_model, hcl]

/-- Concrete instance of `remove_silence_empty_cut_list_no_op`. -/
theorem remove_silence_empty_cut_list_no_op_witness :
    remove_silence_model [((0 : ℚ), (10 : ℚ))] 10 (1/5) (1/10) =
      ⟨true, false, Outcome.noSegments⟩ :=
  remove_silence_empty_cut_list_no_op [((0 : ℚ), (10 : ℚ))] 10 (1/5) (1/10)
    (by simp) (by norm_num [create_cut_list, cutListAux])

/-- C8: empty silences make `remove_silence` return as a no-op without
running the cut-list builder or the segment executor, and this outcome
is distinct from the one where non-empty silences yield an empty cut
list. -/
theorem remove_silence_no_silences_short_circuit :
    (∀ totalDuration minSegmentDuration padding : ℚ,
      remove_silence_model [] totalDuration minSegmentDuration padding =
        ⟨false, false, Outcome.noSilences⟩) ∧
    (∀ (silences : List Interval) (totalDuration minSegmentDuration padding : ℚ),
      silences ≠ [] →
      create_cut_list silences totalDuration minSegmentDuration padding = [] →
      remove_silence_model silences totalDuration minSegmentDuration padding =
        ⟨true, false, Outcome.noSegments⟩) ∧
    Outcome.noSilences ≠ Outcome.noSegments := by
  refine ⟨fun _ _ _ => rfl, ?_, by decide⟩
  intro silences totalDuration minSegmentDuration padding hne hcl
  cases silences with
  | nil => exact absurd rfl hne
  | cons x rest => simp [remove_silence_model, hcl]

/-- Concrete instance of `remove_silence_no_silences_short_circuit`. -/
theorem remove_silence_no_silences_short_circuit_witness :
    remove_silence_model [] 5 (1/5) (1/10) = ⟨false, false, Outcome.noSilences⟩ ∧
    remove_silence_model [((0 : ℚ), (5 : ℚ))] 5 (1/5) (1/10) =
      ⟨true, false, Outcome.noSegments⟩ :=
  ⟨remove_silence_no_silences_short_circuit.1 5 (1/5) (1/10),
    remove_silence_no_silences_short_circuit.2.1 [((0 : ℚ), (5 : ℚ))] 5 (1/5) (1/10)
      (by simp) (by norm_num [create_cut_list, cutListAux])⟩

/-- Least-significant-first decimal digits of `n`, with explicit fuel
(the value itself always suffices as fuel). -/
def digitsLSF : ℕ → ℕ → List ℕ
  | 0, _ => []
  | fuel + 1, n => if n = 0 then [] else n % 10 :: digitsLSF fuel (n / 10)

/-- Most-significant-first decimal digits of `n` (empty for `0`). -/
def decDigits (n : ℕ) : List ℕ :=
  (digitsLSF n n).reverse

/-- The digit string of Python's `f"{n:04d}"`: the decimal digits of
`n`, left-padded with zeros to a minimum width of four. -/
def pad4 (n : ℕ) : List ℕ :=
  List.replicate (4 - (decDigits n).length) 0 ++ decDigits n

theorem digitsLSF_zero : ∀ fuel, digitsLSF fuel 0 = [] := by
  intro fuel
  cases fuel <;> simp [digitsLSF]

theorem digitsLSF_step (fuel n : ℕ) (h : n ≠ 0) :
    digitsLSF (fuel + 1) n = n % 10 :: digitsLSF fuel (n / 10) := by
  simp [digitsLSF, h]

theorem digitsLSF_d1 : ∀ fuel n, 1 ≤ n → n < 10 → n ≤ fuel →
    digitsLSF fuel n = [n] := by
  intro fuel n h1 h2 hf
  cases fuel with
  | zero => omega
  | succ f =>
    rw [digitsLSF_step f n (by omega)]
    rw [show n / 10 = 0 by omega, digitsLSF_zero, show n % 10 = n by omega]

theorem digitsLSF_d2 : ∀ fuel n, 10 ≤ n → n < 100 → n ≤ fuel →
    digitsLSF fuel n = [n % 10, n / 10] := by
  intro fuel n h1 h2 hf
  cases fuel with
  | zero => omega
  | succ f =>
    rw [digitsLSF_step f n (by omega)]
    rw [digitsLSF_d1 f (n / 10) (by omega) (by omega) (by omega)]

theorem digitsLSF_d3 : ∀ fuel n, 100 ≤ n → n < 1000 → n ≤ fuel →
    digitsLSF fuel n = [n % 10, n / 10 % 10, n / 100] := by
  intro fuel n h1 h2 hf
  cases fuel with
  | zero => omega
  | succ f =>
    rw [digitsLSF_step f n (by omega)]
    rw [digitsLSF_d2 f (n / 10) (by omega) (by omega) (by omega)]
    rw [show n / 10 % 10 = n / 10 % 10 from rfl, show n / 10 / 10 = n / 100 by omega]

theorem digitsLSF_d4 : ∀ fuel n, 1000 ≤ n → n < 10000 → n ≤ fuel →
    digitsLSF fuel n = [n % 10, n / 10 % 10, n / 100 % 10, n / 1000] := by
  intro fuel n h1 h2 hf
  cases fuel with
  | zero => omega
  | succ f =>
    rw [digitsLSF_step f n (by omega)]
    rw [digitsLSF_d3 f (n / 10) (by omega) (by omega) (by omega)]
    rw [show n / 10 / 10 = n / 100 by omega, show n / 10 / 100 = n / 1000 by omega]

theorem digitsLSF_d5 : ∀ fuel n, 10000 ≤ n → n < 100000 → n ≤ fuel →
    digitsLSF fuel n = [n % 10, n / 10 % 10, n / 100 % 10, n / 1000 % 10, n / 10000] := by
  intro fuel n h1 h2 hf
  cases fuel with
  | zero => omega
  | succ f =>
    rw [digitsLSF_step f n (by omega)]
    rw [digitsLSF_d4 f (n / 10) (by omega) (by omega) (by omega)]
    rw [show n / 10 / 10 = n / 100 by omega, show n / 10 / 100 = n / 1000 by omega,
      show n / 10 / 1000 = n / 10000 by omega]

theorem pad4_eq (n : ℕ) (h : n < 10000) :
    pad4 n = [n / 1000, n / 100 % 10, n / 10 % 10, n % 10] := by
  rcases Nat.lt_or_ge n 1 with h0 | h0
  · have hn : n = 0 := by omega
    subst hn
    simp [pad4, decDigits, digitsLSF]
  rcases Nat.lt_or_ge n 10 with h1 | h1
  · have hd : decDigits n = [n] := by
      simp [decDigits, digitsLSF_d1 n n h0 h1 le_rfl]
    rw [pad4, hd]
    simp only [List.length_cons, List.length_nil]
    norm_num [List.replicate]
    omega
  rcases Nat.lt_or_ge n 100 with h2 | h2
  · have hd : decDigits n = [n / 10, n % 10] := by
      simp [decDigits, digitsLSF_d2 n n h1 h2 le_rfl]
    rw [pad4, hd]
    simp only [List.length_cons, List.length_nil]
    norm_num [List.replicate]
    omega
  rcases Nat.lt_or_ge n 1000 with h3 | h3
  · have hd : decDigits n = [n / 100, n / 10 % 10, n % 10] := by
      simp [decDigits, digitsLSF_d3 n n h2 h3 le_rfl]
    rw [pad4, hd]
    simp only [List.length_cons, List.length_nil]
    norm_num [List.replicate]
    omega
  · have hd : decDigits n = [n / 1000, n / 100 % 10, n / 10 % 10, n % 10] := by
      simp [decDigits, digitsLSF_d4 n n h3 h le_rfl]
    rw [pad4, hd]
    simp only [List.length_cons, List.length_nil]
    norm_num [List.replicate]

/-- Code points of `"segment_"`. -/
def namePre : List ℕ := [115, 101, 103, 109, 101, 110, 116, 95]

/-- Code points of `".mp4"`. -/
def nameSuf : List ℕ := [46, 109, 112, 52]

/-- The artifact filename produced by `process_segment`
(src/remove_silence.py line 213), `f"segment_{index:04d}.mp4"`,
modelled as its list of character code points (digit value + 48 is the
code point of the digit character).  All artifacts share the same
`temp_dir` prefix, so comparing these names is comparing the paths the
code sorts. -/
def segmentFileName (i : ℕ) : List ℕ :=
  namePre ++ (pad4 i).map (fun d => d + 48) ++ nameSuf

theorem lex_append_of_length_eq {r : ℕ → ℕ → Prop} :
    ∀ {l₁ l₂ : List ℕ}, List.Lex r l₁ l₂ → l₁.length = l₂.length →
      ∀ (s₁ s₂ : List ℕ), List.Lex r (l₁ ++ s₁) (l₂ ++ s₂) := by
  intro l₁ l₂ h
  induction h with
  | nil => intro hlen; simp at hlen
  | @cons a as bs h ih =>
    intro hlen s₁ s₂
    exact List.Lex.cons (ih (by simpa using hlen) s₁ s₂)
  | @rel a as b bs h =>
    intro _ s₁ s₂
    exact List.Lex.rel h

theorem lex_map_add (c : ℕ) :
    ∀ {l₁ l₂ : List ℕ}, List.Lex (· < ·) l₁ l₂ →
      List.Lex (· < ·) (l₁.map (fun d => d + c)) (l₂.map (fun d => d + c)) := by
  intro l₁ l₂ h
  induction h with
  | nil => exact List.Lex.nil
  | cons _ ih => exact List.Lex.cons ih
  | @rel a as b bs h =>
    have hc : a + c < b + c := by omega
    exact List.Lex.rel hc

theorem pad4_lex (i j : ℕ) (hij : i < j) (hj : j < 10000) :
    List.Lex (· < ·) (pad4 i) (pad4 j) := by
  rw [pad4_eq i (lt_trans hij hj), pad4_eq j hj]
  rcases Nat.lt_trichotomy (i / 1000) (j / 1000) with h1 | h1 | h1
  · exact List.Lex.rel h1
  · rw [h1]
    refine List.Lex.cons ?_
    rcases Nat.lt_trichotomy (i / 100 % 10) (j / 100 % 10) with h2 | h2 | h2
    · exact List.Lex.rel h2
    · rw [h2]
      refine List.Lex.cons ?_
      rcases Nat.lt_trichotomy (i / 10 % 10) (j / 10 % 10) with h3 | h3 | h3
      · exact List.Lex.rel h3
      · rw [h3]
        refine List.Lex.cons ?_
        rcases Nat.lt_trichotomy (i % 10) (j % 10) with h4 | h4 | h4
        · exact List.Lex.rel h4
        · exfalso; omega
        · exfalso; omega
      · exfalso; omega
    · exfalso; omega
  · exfalso; omega

theorem pad4_length (n : ℕ) (h : n < 10000) : (pad4 n).length = 4 := by
  rw [pad4_eq n h]
  rfl

theorem segmentFileName_lt (i j : ℕ) (hij : i < j) (hj : j < 10000) :
    segmentFileName i < segmentFileName j := by
  show List.Lex (· < ·) (segmentFileName i) (segmentFileName j)
  rw [segmentFileName, segmentFileName, List.append_assoc, List.append_assoc]
  refine List.Lex.append_left _ ?_ namePre
  refine lex_append_of_length_eq (lex_map_add 48 (pad4_lex i j hij hj)) ?_ _ _
  simp [pad4_length i (lt_trans hij hj), pad4_length j hj]

/-- Artifact collection of `process_chunks_parallel`
(src/remove_silence.py lines 248-254): results arrive in completion
order (`order` lists the segment indices in that order), failed
segments (`ok i = false`) return `None` and are dropped. -/
def collectArtifacts (order : List ℕ) (ok : ℕ → Bool) : List (List ℕ) :=
  order.filterMap (fun i => if ok i then some (segmentFileName i) else none)

/-- The artifact list written to the concatenation input file
(src/remove_silence.py lines 256-261): the collected artifact paths,
sorted by `list.sort()`, i.e. lexicographically by code point. -/
def concatInputList (order : List ℕ) (ok : ℕ → Bool) : List (List ℕ) :=
  List.insertionSort (· ≤ ·) (collectArtifacts order ok)

theorem collectArtifacts_eq (ok : ℕ → Bool) :
    ∀ l : List ℕ, collectArtifacts l ok = (l.filter ok).map segmentFileName := by
  intro l
  induction l with
  | nil => rfl
  | cons a l ih =>
    simp only [collectArtifacts] at ih ⊢
    by_cases h : ok a = true
    · simp [List.filterMap_cons, List.filter_cons, h, ih]
    · simp [List.filterMap_cons, List.filter_cons, h, ih]

/-- C9 (amended): for a cut list of at most 10000 segments, whatever
the completion order (any permutation of the indices) and whatever
subset of segments succeeds, the concatenation input list is exactly
the successful artifacts in ascending segment-index order — i.e. in
KeepInterval index order, independent of completion order. -/
theorem concat_list_in_index_order (n : ℕ) (hn : n ≤ 10000) (order : List ℕ)
    (hperm : order.Perm (List.range n)) (ok : ℕ → Bool) :
    concatInputList order ok =
      ((List.range n).filter ok).map segmentFileName := by
  have hperm2 : (concatInputList order ok).Perm
      (((List.range n).filter ok).map segmentFileName) := by
    refine (List.perm_insertionSort _ _).trans ?_
    refine (hperm.filterMap _).trans ?_
    rw [show (List.range n).filterMap
        (fun i => if ok i then some (segmentFileName i) else none) =
        ((List.range n).filter ok).map segmentFileName from
      collectArtifacts_eq ok (List.range n)]
  have hsorted1 : List.Sorted (· ≤ ·) (concatInputList order ok) :=
    List.sorted_insertionSort _ _
  have hstrict : List.Sorted (· < ·)
      (((List.range n).filter ok).map segmentFileName) := by
    refine List.pairwise_map.2 ?_
    have hp : ((List.range n).filter ok).Pairwise (· < ·) :=
      (List.pairwise_lt_range n).filter ok
    refine hp.imp_of_mem ?_
    intro a b ha hb hlt
    have hbn : b < n := List.mem_range.1 (List.mem_filter.1 hb).1
    exact segmentFileName_lt a b hlt (lt_of_lt_of_le hbn hn)
  exact List.eq_of_perm_of_sorted hperm2 hsorted1 (hstrict.imp le_of_lt)

/-- Concrete instance of `concat_list_in_index_order`: two segments
completing in reverse order, both successful. -/
theorem concat_list_in_index_order_witness :
    concatInputList [1, 0] (fun _ => true) =
      ((List.range 2).filter (fun _ => true)).map segmentFileName :=
  concat_list_in_index_order 2 (by norm_num) [1, 0] (by decide) (fun _ => true)

/-- C9 counterexample: with 10001 segments of which exactly segments
9999 and 10000 succeed (completion order = index order), the
concatenation input list is NOT the successful artifacts in ascending
index order: `"segment_10000.mp4"` sorts lexicographically before
`"segment_9999.mp4"`. -/
theorem concat_list_counterexample :
    concatInputList (List.range 10001) (fun i => 9999 ≤ i) ≠
      ((List.range 10001).filter (fun i => 9999 ≤ i)).map segmentFileName := by
  have hfil : (List.range 10001).filter (fun i => 9999 ≤ i) = [9999, 10000] := by
    rw [show (10001 : ℕ) = 9999 + 2 from rfl, List.range_add, List.filter_append]
    rw [List.filter_eq_nil_iff.2 (fun a ha => by simp [List.mem_range.1 ha])]
    rw [show ((List.range 2).map (fun i => 9999 + i)) = [9999, 10000] from by decide]
    simp
  have hname1 : segmentFileName 9999 =
      [115, 101, 103, 109, 101, 110, 116, 95, 57, 57, 57, 57, 46, 109, 112, 52] := by
    rw [segmentFileName, pad4_eq 9999 (by norm_num)]
    norm_num [namePre, nameSuf]
  have hname2 : segmentFileName 10000 =
      [115, 101, 103, 109, 101, 110, 116, 95, 49, 48, 48, 48, 48, 46, 109, 112, 52] := by
    have h5 : digitsLSF 10000 10000 = [0, 0, 0, 0, 1] := by
      rw [digitsLSF_d5 10000 10000 (by norm_num) (by norm_num) le_rfl]
    have hd : pad4 10000 = [1, 0, 0, 0, 0] := by
      simp [pad4, decDigits, h5]
    rw [segmentFileName, hd]
    norm_num [namePre, nameSuf]
  have hcoll : collectArtifacts (List.range 10001) (fun i => 9999 ≤ i) =
      [segmentFileName 9999, segmentFileName 10000] := by
    rw [collectArtifacts_eq, hfil]
    rfl
  have hsort : concatInputList (List.range 10001) (fun i => 9999 ≤ i) =
      [segmentFileName 10000, segmentFileName 9999] := by
    rw [show concatInputList (List.range 10001) (fun i => 9999 ≤ i) =
        List.insertionSort (· ≤ ·)
          (collectArtifacts (List.range 10001) (fun i => 9999 ≤ i)) from rfl]
    rw [hcoll, hname1, hname2]
    decide
  rw [hsort, hfil]
  simp only [List.map_cons, List.map_nil]
  rw [hname1, hname2]
  decide

end RemoveSilence
